import Mathlib

/-!
Verification of the metric dependency-graph evaluation engine of
`sports_planner_lib` against its natural-language specification.

Shallow-embedding conventions used throughout this file:

* Metric classes are identified by natural numbers (for the dependency
  resolver) or by records carrying exactly the attributes the modelled code
  reads.
* Python lists become `List`, dicts become association lists, raised
  exceptions become `Except` errors, floats become `ℚ`.
* Behaviour of external collaborators (the scipy curve fitter, the database
  rows of an activity, dynamic dependency retrieval) is passed in as explicit
  oracle parameters, so every function stays executable.
* Loops whose termination rests on facts outside the local code (the finite
  class universe) take explicit fuel; separate lemmas show the fuel chosen by
  the top-level wrappers suffices.
-/

namespace SportsPlanner

/-! ### The dependency resolver (`MetricsCalculator.order_deps`, metrics/calculate.py) -/

/-- Dependency graph read by `MetricsCalculator.order_deps`.  Metric classes
are numbered `0, …, univ - 1`; `deps m` models the class attribute `m.deps`
and `weak_deps m` models `m.weak_deps`. -/
structure DepGraph where
  univ : Nat
  deps : Nat → List Nat
  weak_deps : Nat → List Nat

/-- The list `metric.deps + metric.weak_deps` iterated by `order_deps`. -/
def DepGraph.allDeps (g : DepGraph) (m : Nat) : List Nat :=
  g.deps m ++ g.weak_deps m

/-- Well-formedness: classes of the finite universe only depend on classes of
the universe. -/
def DepGraph.WF (g : DepGraph) : Prop :=
  ∀ m, m < g.univ → ∀ d ∈ g.allDeps m, d < g.univ

/-- Acyclicity of the dependency graph, expressed by a rank function that
decreases along every (hard or weak) dependency edge. -/
def DepGraph.Acyclic (g : DepGraph) : Prop :=
  ∃ rank : Nat → Nat, ∀ m, m < g.univ → ∀ d ∈ g.allDeps m, rank d < rank m

/-- Transitive closure of `roots` over hard and weak dependency edges. -/
inductive Reach (g : DepGraph) (roots : List Nat) : Nat → Prop
  | base {m : Nat} : m ∈ roots → Reach g roots m
  | step {m d : Nat} : Reach g roots m → d ∈ g.allDeps m → Reach g roots d

/-- Inner `for` loop of `order_deps`: every dependency that is not already in
the worklist is appended to it (`desired_metrics.append(_metric)`). -/
def appendNew (l : List Nat) (ds : List Nat) : List Nat :=
  ds.foldl (fun acc d => if d ∈ acc then acc else acc ++ [d]) l

theorem appendNew_cons (l : List Nat) (d : Nat) (ds : List Nat) :
    appendNew l (d :: ds) = appendNew (if d ∈ l then l else l ++ [d]) ds := rfl

theorem appendNew_spec (ds l : List Nat) :
    ∃ t, appendNew l ds = l ++ t ∧ t.Nodup ∧ ∀ x ∈ t, x ∈ ds ∧ x ∉ l := by
  induction ds generalizing l with
  | nil => exact ⟨[], by simp [appendNew]⟩
  | cons d ds ih =>
    rw [appendNew_cons]
    by_cases hd : d ∈ l
    · rw [if_pos hd]
      obtain ⟨t, ht, hnd, hx⟩ := ih l
      exact ⟨t, ht, hnd, fun x hx' =>
        ⟨List.mem_cons_of_mem _ (hx x hx').1, (hx x hx').2⟩⟩
    · rw [if_neg hd]
      obtain ⟨t, ht, hnd, hx⟩ := ih (l ++ [d])
      refine ⟨d :: t, by simpa [List.append_assoc] using ht, ?_, ?_⟩
      · refine List.nodup_cons.mpr ⟨fun hdt => ?_, hnd⟩
        exact (hx d hdt).2 (by simp)
      · intro x hx'
        rcases List.mem_cons.mp hx' with rfl | hxt
        · exact ⟨List.mem_cons_self _ _, hd⟩
        · refine ⟨List.mem_cons_of_mem _ (hx x hxt).1, fun hxl => (hx x hxt).2 ?_⟩
          simp [hxl]

theorem mem_appendNew {x : Nat} (l ds : List Nat) :
    x ∈ appendNew l ds ↔ x ∈ l ∨ x ∈ ds := by
  induction ds generalizing l with
  | nil => simp [appendNew]
  | cons d ds ih =>
    rw [appendNew_cons]
    by_cases hd : d ∈ l
    · rw [if_pos hd, ih]
      constructor
      · rintro (h | h)
        · exact Or.inl h
        · exact Or.inr (List.mem_cons_of_mem _ h)
      · rintro (h | h)
        · exact Or.inl h
        · rcases List.mem_cons.mp h with rfl | h
          · exact Or.inl hd
          · exact Or.inr h
    · rw [if_neg hd, ih]
      simp only [List.mem_append, List.mem_cons, List.mem_singleton]
      tauto

/-- The `while i < len(desired_metrics)` worklist loop of `order_deps`, with
explicit fuel.  Returns the final state of the `desired_metrics` list. -/
def closeDepsAux (g : DepGraph) : Nat → List Nat → Nat → Option (List Nat)
  | 0, l, i => if i < l.length then none else some l
  | fuel + 1, l, i =>
    if h : i < l.length then
      closeDepsAux g fuel (appendNew l (g.allDeps l[i])) (i + 1)
    else some l

theorem closeDepsAux_zero (g : DepGraph) (l : List Nat) (i : Nat) :
    closeDepsAux g 0 l i = if i < l.length then none else some l := rfl

theorem closeDepsAux_succ (g : DepGraph) (fuel : Nat) (l : List Nat) (i : Nat) :
    closeDepsAux g (fuel + 1) l i =
      if h : i < l.length then
        closeDepsAux g fuel (appendNew l (g.allDeps l[i])) (i + 1)
      else some l := rfl

/-- State of the caller's `desired_metrics` list after the worklist loop of
`order_deps` (the loop mutates its argument in place).  The fuel
`desired.length + g.univ + 1` is always enough, see `closeDepsAux_isSome`. -/
def closeDeps (g : DepGraph) (desired : List Nat) : Option (List Nat) :=
  closeDepsAux g (desired.length + g.univ + 1) desired 0

/-- Worklist invariant: all entries lie in the class universe, and the list is
the original request followed by a duplicate-free batch of fresh entries. -/
def WorkInv (g : DepGraph) (req l : List Nat) : Prop :=
  (∀ x ∈ l, x < g.univ) ∧ ∃ t, l = req ++ t ∧ t.Nodup ∧ ∀ x ∈ t, x ∉ req

theorem WorkInv.init (g : DepGraph) (req : List Nat) (h : ∀ x ∈ req, x < g.univ) :
    WorkInv g req req :=
  ⟨h, [], by simp, List.nodup_nil, by simp⟩

theorem WorkInv.length_le {g : DepGraph} {req l : List Nat} (h : WorkInv g req l) :
    l.length ≤ req.length + g.univ := by
  obtain ⟨hu, t, rfl, hnd, -⟩ := h
  have hsub : t.toFinset ⊆ Finset.range g.univ := by
    intro x hx
    simpa using hu x (List.mem_append.mpr (Or.inr (List.mem_toFinset.mp hx)))
  have hcard := Finset.card_le_card hsub
  rw [List.toFinset_card_of_nodup hnd, Finset.card_range] at hcard
  simp only [List.length_append]
  omega

theorem WorkInv.step {g : DepGraph} {req l : List Nat} (hwf : g.WF)
    (h : WorkInv g req l) {i : Nat} (hi : i < l.length) :
    WorkInv g req (appendNew l (g.allDeps l[i])) := by
  obtain ⟨hu, t, hlt, hnd, hfresh⟩ := h
  obtain ⟨s, hs, hsnd, hsx⟩ := appendNew_spec (g.allDeps l[i]) l
  constructor
  · intro x hx
    rcases (mem_appendNew l _).mp hx with hx | hx
    · exact hu x hx
    · exact hwf l[i] (hu _ (List.getElem_mem hi)) x hx
  · refine ⟨t ++ s, by rw [hs, hlt, List.append_assoc], ?_, ?_⟩
    · refine hnd.append hsnd ?_
      intro x hxt hxs
      exact (hsx x hxs).2 (by rw [hlt]; exact List.mem_append.mpr (Or.inr hxt))
    · intro x hx
      rcases List.mem_append.mp hx with hx | hx
      · exact hfresh x hx
      · intro hreq
        exact (hsx x hx).2 (by rw [hlt]; exact List.mem_append.mpr (Or.inl hreq))

theorem closeDepsAux_inv {g : DepGraph} {req : List Nat} (hwf : g.WF) :
    ∀ fuel l i out, closeDepsAux g fuel l i = some out → WorkInv g req l →
      WorkInv g req out := by
  intro fuel
  induction fuel with
  | zero =>
    intro l i out h hinv
    rw [closeDepsAux_zero] at h
    by_cases hi : i < l.length
    · rw [if_pos hi] at h; cases h
    · rw [if_neg hi] at h
      cases h
      exact hinv
  | succ fuel ih =>
    intro l i out h hinv
    rw [closeDepsAux_succ] at h
    by_cases hi : i < l.length
    · rw [dif_pos hi] at h
      exact ih _ _ _ h (hinv.step hwf hi)
    · rw [dif_neg hi] at h
      cases h
      exact hinv

theorem closeDepsAux_isSome {g : DepGraph} {req : List Nat} (hwf : g.WF) :
    ∀ fuel l i, WorkInv g req l → req.length + g.univ - i < fuel →
      (closeDepsAux g fuel l i).isSome := by
  intro fuel
  induction fuel with
  | zero => intro l i _ hfuel; omega
  | succ fuel ih =>
    intro l i hinv hfuel
    rw [closeDepsAux_succ]
    by_cases hi : i < l.length
    · rw [dif_pos hi]
      have hlen := hinv.length_le
      exact ih _ _ (hinv.step hwf hi) (by omega)
    · rw [dif_neg hi]
      rfl

theorem closeDepsAux_closed {g : DepGraph} :
    ∀ fuel l i out, closeDepsAux g fuel l i = some out →
      (∀ x ∈ l.take i, ∀ d ∈ g.allDeps x, d ∈ l) →
      ∀ m ∈ out, ∀ d ∈ g.allDeps m, d ∈ out := by
  intro fuel
  induction fuel with
  | zero =>
    intro l i out h hproc
    rw [closeDepsAux_zero] at h
    by_cases hi : i < l.length
    · rw [if_pos hi] at h; cases h
    · rw [if_neg hi] at h
      cases h
      intro m hm d hd
      exact hproc m (by rwa [List.take_of_length_le (by omega)]) d hd
  | succ fuel ih =>
    intro l i out h hproc
    rw [closeDepsAux_succ] at h
    by_cases hi : i < l.length
    · rw [dif_pos hi] at h
      refine ih _ _ _ h ?_
      obtain ⟨s, hs, -, -⟩ := appendNew_spec (g.allDeps l[i]) l
      intro x hx d hd
      rw [hs, List.take_append_of_le_length (by omega),
        ← List.take_concat_get' l i hi] at hx
      rcases List.mem_append.mp hx with hx | hx
      · exact (mem_appendNew l _).mpr (Or.inl (hproc x hx d hd))
      · rcases List.mem_singleton.mp hx with rfl
        exact (mem_appendNew l _).mpr (Or.inr hd)
    · rw [dif_neg hi] at h
      cases h
      intro m hm d hd
      exact hproc m (by rwa [List.take_of_length_le (by omega)]) d hd

theorem closeDepsAux_reach {g : DepGraph} {roots : List Nat} :
    ∀ fuel l i out, closeDepsAux g fuel l i = some out →
      (∀ x ∈ l, Reach g roots x) → ∀ x ∈ out, Reach g roots x := by
  intro fuel
  induction fuel with
  | zero =>
    intro l i out h hl
    rw [closeDepsAux_zero] at h
    by_cases hi : i < l.length
    · rw [if_pos hi] at h; cases h
    · rw [if_neg hi] at h
      cases h
      exact hl
  | succ fuel ih =>
    intro l i out h hl
    rw [closeDepsAux_succ] at h
    by_cases hi : i < l.length
    · rw [dif_pos hi] at h
      refine ih _ _ _ h ?_
      intro x hx
      rcases (mem_appendNew l _).mp hx with hx | hx
      · exact hl x hx
      · exact Reach.step (hl l[i] (List.getElem_mem hi)) hx
    · rw [dif_neg hi] at h
      cases h
      exact hl

/-- Readiness test of the topological sort: all predecessors of `m` in the
`deps_dict` graph (its hard and weak deps) have already been output. -/
def kahnReady (g : DepGraph) (emitted : List Nat) (m : Nat) : Bool :=
  (g.allDeps m).all fun d => decide (d ∈ emitted)

/-- Generation-by-generation topological sort, modelling
`TopologicalSorter(deps_dict).static_order()` from `graphlib`: repeatedly
output every pending node whose dependencies have all been output already.
`none` models the `CycleError` raised on a cyclic graph. -/
def kahnAux (g : DepGraph) : Nat → List Nat → List Nat → Option (List Nat)
  | 0, _, _ => none
  | fuel + 1, pending, emitted =>
    let ready := pending.filter (kahnReady g emitted)
    if ready.isEmpty then
      if pending.isEmpty then some emitted else none
    else
      kahnAux g fuel (pending.filter fun m => !kahnReady g emitted m) (emitted ++ ready)

/-- Ordering guarantee: inside `l`, every (hard or weak) dependency of a
member occurs strictly earlier than the member itself. -/
def DepsFirst (g : DepGraph) (l : List Nat) : Prop :=
  ∀ m ∈ l, ∀ d ∈ g.allDeps m, List.indexOf d l < List.indexOf m l

theorem kahnReady_mem {g : DepGraph} {emitted : List Nat} {m : Nat}
    (h : kahnReady g emitted m = true) : ∀ d ∈ g.allDeps m, d ∈ emitted := by
  intro d hd
  have := List.all_eq_true.mp h d hd
  simpa using this

theorem kahnAux_sound {g : DepGraph} :
    ∀ fuel pending emitted out, kahnAux g fuel pending emitted = some out →
      (∀ x ∈ pending, x ∉ emitted) → DepsFirst g emitted →
      DepsFirst g out ∧ (∀ x ∈ pending, x ∈ out) ∧ ∀ x ∈ emitted, x ∈ out := by
  intro fuel
  induction fuel with
  | zero => intro pending emitted out h; cases h
  | succ fuel ih =>
    intro pending emitted out h hdis hinv
    rw [kahnAux] at h
    by_cases hready : (pending.filter (kahnReady g emitted)).isEmpty
    · rw [if_pos hready] at h
      by_cases hpend : pending.isEmpty
      · rw [if_pos hpend] at h
        cases h
        have : pending = [] := List.isEmpty_iff.mp hpend
        subst this
        exact ⟨hinv, by simp, fun x hx => hx⟩
      · rw [if_neg hpend] at h
        cases h
    · rw [if_neg hready] at h
      have hreadysub : ∀ x ∈ pending.filter (kahnReady g emitted), x ∈ pending :=
        fun x hx => (List.mem_filter.mp hx).1
      have hdis' : ∀ x ∈ pending.filter (fun m => !kahnReady g emitted m),
          x ∉ emitted ++ pending.filter (kahnReady g emitted) := by
        intro x hx
        obtain ⟨hxp, hxn⟩ := List.mem_filter.mp hx
        intro hmem
        rcases List.mem_append.mp hmem with hmem | hmem
        · exact hdis x hxp hmem
        · have := (List.mem_filter.mp hmem).2
          simp [this] at hxn
      have hinv' : DepsFirst g (emitted ++ pending.filter (kahnReady g emitted)) := by
        intro m hm d hd
        rcases List.mem_append.mp hm with hm | hm
        · have h1 := hinv m hm d hd
          have hmlt : List.indexOf m emitted < emitted.length :=
            List.indexOf_lt_length.mpr hm
          have hdmem : d ∈ emitted := List.indexOf_lt_length.mp (by omega)
          rw [List.indexOf_append_of_mem hdmem, List.indexOf_append_of_mem hm]
          exact h1
        · obtain ⟨hmp, hmr⟩ := List.mem_filter.mp hm
          have hdmem : d ∈ emitted := kahnReady_mem hmr d hd
          have hmnot : m ∉ emitted := hdis m hmp
          rw [List.indexOf_append_of_mem hdmem, List.indexOf_append_of_not_mem hmnot]
          have := List.indexOf_lt_length.mpr hdmem
          omega
      obtain ⟨hout1, hout2, hout3⟩ := ih _ _ _ h hdis' hinv'
      refine ⟨hout1, ?_, ?_⟩
      · intro x hx
        by_cases hr : kahnReady g emitted x
        · exact hout3 x (List.mem_append.mpr (Or.inr (List.mem_filter.mpr ⟨hx, hr⟩)))
        · exact hout2 x (List.mem_filter.mpr ⟨hx, by simp [hr]⟩)
      · intro x hx
        exact hout3 x (List.mem_append.mpr (Or.inl hx))

theorem kahnAux_isSome {g : DepGraph} {rank : Nat → Nat}
    (hrk : ∀ m, m < g.univ → ∀ d ∈ g.allDeps m, rank d < rank m) :
    ∀ fuel pending emitted,
      (∀ m ∈ pending, m < g.univ) →
      (∀ m ∈ pending, ∀ d ∈ g.allDeps m, d ∈ pending ∨ d ∈ emitted) →
      pending.length < fuel → (kahnAux g fuel pending emitted).isSome := by
  intro fuel
  induction fuel with
  | zero => intro pending emitted _ _ hlen; omega
  | succ fuel ih =>
    intro pending emitted hu hcl hlen
    rw [kahnAux]
    by_cases hpend : pending.isEmpty
    · have : pending = [] := List.isEmpty_iff.mp hpend
      subst this
      simp
    · have hne : pending ≠ [] := fun hh => hpend (by simp [hh])
      have hfne : pending.toFinset.Nonempty := by
        rcases List.exists_mem_of_ne_nil pending hne with ⟨a, ha⟩
        exact ⟨a, List.mem_toFinset.mpr ha⟩
      obtain ⟨m₀, hm₀s, hmin⟩ := Finset.exists_min_image pending.toFinset rank hfne
      have hm₀ : m₀ ∈ pending := List.mem_toFinset.mp hm₀s
      have hm₀ready : kahnReady g emitted m₀ = true := by
        rw [kahnReady, List.all_eq_true]
        intro d hd
        rcases hcl m₀ hm₀ d hd with hdp | hde
        · have h1 := hrk m₀ (hu m₀ hm₀) d hd
          have h2 := hmin d (List.mem_toFinset.mpr hdp)
          omega
        · simpa using hde
      have hready : ¬(pending.filter (kahnReady g emitted)).isEmpty := by
        intro hh
        have hnil : pending.filter (kahnReady g emitted) = [] := List.isEmpty_iff.mp hh
        have hmem := List.mem_filter.mpr ⟨hm₀, hm₀ready⟩
        rw [hnil] at hmem
        cases hmem
      rw [if_neg hready]
      have hsublen : (pending.filter fun m => !kahnReady g emitted m).length <
          pending.length := by
        rw [List.length_filter_lt_length_iff_exists]
        exact ⟨m₀, hm₀, by simp [hm₀ready]⟩
      refine ih _ _ ?_ ?_ (by omega)
      · intro m hm
        exact hu m (List.mem_filter.mp hm).1
      · intro m hm d hd
        have hmp := (List.mem_filter.mp hm).1
        rcases hcl m hmp d hd with hdp | hde
        · by_cases hr : kahnReady g emitted d
          · exact Or.inr (List.mem_append.mpr (Or.inr (List.mem_filter.mpr ⟨hdp, hr⟩)))
          · exact Or.inl (List.mem_filter.mpr ⟨hdp, by simp [hr]⟩)
        · exact Or.inr (List.mem_append.mpr (Or.inl hde))

/-- `MetricsCalculator.order_deps` (metrics/calculate.py, lines 116-133):
close the requested metrics under hard and weak dependencies with the
worklist loop, deduplicate (the Python code builds the `set`
`required_metrics` and keys `deps_dict` by it), then topologically sort.
`none` models the uncaught `CycleError`. -/
def order_deps (g : DepGraph) (desired : List Nat) : Option (List Nat) :=
  match closeDeps g desired with
  | none => none
  | some closed => kahnAux g (closed.dedup.length + 1) closed.dedup []

theorem closeDeps_full {g : DepGraph} {req : List Nat}
    (hwf : g.WF) (hreq : ∀ m ∈ req, m < g.univ) :
    ∃ closed, closeDeps g req = some closed ∧ WorkInv g req closed ∧
      (∀ m ∈ closed, ∀ d ∈ g.allDeps m, d ∈ closed) ∧
      ∀ x, x ∈ closed ↔ Reach g req x := by
  have hinv₀ : WorkInv g req req := WorkInv.init g req hreq
  have hsome : (closeDeps g req).isSome :=
    closeDepsAux_isSome hwf _ req 0 hinv₀ (by omega)
  obtain ⟨closed, hc⟩ := Option.isSome_iff_exists.mp hsome
  have hcinv : WorkInv g req closed := closeDepsAux_inv hwf _ req 0 closed hc hinv₀
  have hclosed : ∀ m ∈ closed, ∀ d ∈ g.allDeps m, d ∈ closed :=
    closeDepsAux_closed _ req 0 closed hc (by simp)
  have hreqsub : ∀ x ∈ req, x ∈ closed := by
    obtain ⟨-, t, ht, -, -⟩ := hcinv
    intro x hx
    rw [ht]
    exact List.mem_append.mpr (Or.inl hx)
  refine ⟨closed, hc, hcinv, hclosed, fun x => ⟨?_, ?_⟩⟩
  · intro hx
    exact closeDepsAux_reach _ req 0 closed hc (fun y hy => Reach.base hy) x hx
  · intro hx
    induction hx with
    | base h => exact hreqsub _ h
    | step hr hd ih => exact hclosed _ ih _ hd

/-- C1: for every acyclic, well-formed set of metric definitions, `order_deps`
succeeds, the returned list contains the transitive closure of the requested
metrics over hard and weak dependencies, and every (hard or weak) dependency
of a listed metric appears strictly before that metric in the returned
order. -/
theorem order_deps_correct (g : DepGraph) (req : List Nat)
    (hwf : g.WF) (hreq : ∀ m ∈ req, m < g.univ) (hacyc : g.Acyclic) :
    ∃ out, order_deps g req = some out ∧
      (∀ m, Reach g req m → m ∈ out) ∧
      ∀ m ∈ out, ∀ d ∈ g.allDeps m, List.indexOf d out < List.indexOf m out := by
  obtain ⟨rank, hrank⟩ := hacyc
  obtain ⟨closed, hc, hcinv, hclosed, hmemiff⟩ := closeDeps_full hwf hreq
  have hK : (kahnAux g (closed.dedup.length + 1) closed.dedup []).isSome := by
    refine kahnAux_isSome hrank _ closed.dedup [] ?_ ?_ (by omega)
    · intro m hm
      exact hcinv.1 m (List.mem_dedup.mp hm)
    · intro m hm d hd
      exact Or.inl (List.mem_dedup.mpr (hclosed m (List.mem_dedup.mp hm) d hd))
  obtain ⟨out, hout⟩ := Option.isSome_iff_exists.mp hK
  obtain ⟨hsorted, hsub, -⟩ :=
    kahnAux_sound _ closed.dedup [] out hout (by simp) (by intro m hm; cases hm)
  refine ⟨out, ?_, ?_, hsorted⟩
  · rw [order_deps, hc]
    exact hout
  · intro m hm
    exact hsub m (List.mem_dedup.mpr ((hmemiff m).mpr hm))

/-- C10: the worklist loop of `order_deps` mutates the caller's list in
place: afterwards the original request is still a prefix, every transitive
(hard or weak) dependency that was not already present has been appended
exactly once, and the members of the final list are exactly the dependency
closure of the request (not just the originally requested set). -/
theorem order_deps_mutates_input (g : DepGraph) (req : List Nat)
    (hwf : g.WF) (hreq : ∀ m ∈ req, m < g.univ) :
    ∃ final, closeDeps g req = some final ∧
      (∃ t, final = req ++ t ∧ t.Nodup ∧ ∀ x ∈ t, x ∉ req) ∧
      ∀ x, x ∈ final ↔ Reach g req x := by
  obtain ⟨closed, hc, hcinv, -, hmemiff⟩ := closeDeps_full hwf hreq
  exact ⟨closed, hc, hcinv.2, hmemiff⟩

/-- Concrete three-metric dependency graph used by the witnesses: metric 2
has hard dependency 1 and weak dependency 0, metric 1 has hard dependency
0. -/
def wgraph : DepGraph where
  univ := 3
  deps m :=
    match m with
    | 1 => [0]
    | 2 => [1]
    | _ => []
  weak_deps m :=
    match m with
    | 2 => [0]
    | _ => []

theorem order_deps_correct_witness :
    ∃ out, order_deps wgraph [2] = some out ∧
      (∀ m, Reach wgraph [2] m → m ∈ out) ∧
      ∀ m ∈ out, ∀ d ∈ wgraph.allDeps m,
        List.indexOf d out < List.indexOf m out :=
  order_deps_correct wgraph [2] (by unfold DepGraph.WF; decide) (by decide)
    ⟨fun m => m, by decide⟩

theorem order_deps_mutates_input_witness :
    ∃ final, closeDeps wgraph [2] = some final ∧
      (∃ t, final = [2] ++ t ∧ t.Nodup ∧ ∀ x ∈ t, x ∉ [2]) ∧
      ∀ x, x ∈ final ↔ Reach wgraph [2] x :=
  order_deps_mutates_input wgraph [2] (by unfold DepGraph.WF; decide) (by decide)

/-! ### Memoized parametrized metric families (metrics/pdm.py, metrics/zones.py) -/

/-- Association-list lookup, modelling a Python dict keyed by `κ`. -/
def alookup {κ V : Type} [DecidableEq κ] : List (κ × V) → κ → Option V
  | [], _ => none
  | (k, v) :: rest, key => if k = key then some v else alookup rest key

theorem alookup_cons_self {κ V : Type} [DecidableEq κ] (l : List (κ × V))
    (k : κ) (v : V) : alookup ((k, v) :: l) k = some v := by
  simp [alookup]

/-- Python class object created by a metaclass `__getitem__` via `type(...)`.
`oid` models Python object identity: every `type(...)` call allocates a fresh
object.  The other fields are the class attributes the factories set
(attributes a factory does not set keep their defaults). -/
structure PyClass where
  oid : Nat
  name : String
  column : String := ""
  time : Nat := 0
  zone : String := ""
  deps : List Nat := []
  deriving DecidableEq

/-- The mutable `classes` dictionaries of the five family metaclasses
(`CurveMeta`, `MeanMaxMeta`, `ZoneDefinitionsMeta`, `ZonesMeta`,
`TimeInZoneMeta`), together with a fresh object-identity counter.  `deps`
entries of generated classes are the object identities of the dependency
classes. -/
structure FamilyState where
  curve_classes : List (String × PyClass)
  mean_max_classes : List ((String × Nat) × PyClass)
  zone_definitions_classes : List (String × PyClass)
  zones_classes : List (String × PyClass)
  time_in_zone_classes : List ((String × String) × PyClass)
  fresh : Nat

/-- Two-digit zero padding, the `0>2d` Python format. -/
def pad2 (n : Nat) : String :=
  if n < 10 then "0" ++ toString n else toString n

/-- Function `time` of utils/format.py at its default arguments
(`fractional=False`, `target="hours"`): render a number of seconds as
`h:mm:ss`, `m:ss` or `ss`. -/
def format.time (seconds : Nat) : String :=
  let hours := seconds / 3600
  let seconds := seconds - 3600 * hours
  let mins := seconds / 60
  let secs := seconds - 60 * mins
  let rtn := if hours > 0 then toString hours ++ ":" else ""
  let rtn := rtn ++
    (if mins > 0 ∨ (hours > 0 ∧ mins ≥ 0) then
      (if hours > 0 then pad2 mins ++ ":" else toString mins ++ ":")
    else "")
  rtn ++ pad2 secs

/-- Object identity of the statically defined `Sport` class
(metrics/activity.py). -/
def sportOid : Nat := 0

/-- Object identity of `LactateThresholdHR` (metrics/athlete.py). -/
def lactateThresholdHROid : Nat := 1

/-- Object identity of `FTP` (metrics/athlete.py). -/
def ftpOid : Nat := 2

/-- `CurveMeta.__getitem__` (metrics/pdm.py, lines 76-92): return the cached
subclass for `item`, or create, cache and return a fresh one. -/
def CurveMeta.getitem (s : FamilyState) (item : String) : PyClass × FamilyState :=
  match alookup s.curve_classes item with
  | some c => (c, s)
  | none =>
    let curve : PyClass :=
      { oid := s.fresh, column := item, name := item ++ "-duration curve" }
    (curve, { s with curve_classes := (item, curve) :: s.curve_classes,
                     fresh := s.fresh + 1 })

/-- `MeanMaxMeta.__getitem__` (metrics/pdm.py, lines 139-163), keyed by the
tuple `(column, time)`. -/
def MeanMaxMeta.getitem (s : FamilyState) (item : String × Nat) :
    PyClass × FamilyState :=
  match alookup s.mean_max_classes item with
  | some c => (c, s)
  | none =>
    let column := item.1
    let time := item.2
    let duration := format.time time
    let mean_max : PyClass :=
      { oid := s.fresh, column := column, time := time, deps := [],
        name := duration ++ " max " ++ column }
    (mean_max, { s with mean_max_classes := (item, mean_max) :: s.mean_max_classes,
                        fresh := s.fresh + 1 })

/-- `ZoneDefinitionsMeta.__getitem__` (metrics/zones.py, lines 14-41): the
generated subclass also records `Sport` plus the column's threshold metric as
hard dependencies. -/
def ZoneDefinitionsMeta.getitem (s : FamilyState) (item : String) :
    PyClass × FamilyState :=
  match alookup s.zone_definitions_classes item with
  | some c => (c, s)
  | none =>
    let column := item
    let deps := if column = "heartrate" then [sportOid, lactateThresholdHROid]
      else if column = "power" then [sportOid, ftpOid] else [sportOid]
    let zone_defs : PyClass :=
      { oid := s.fresh, column := column, deps := deps,
        name := column ++ " zone definitions" }
    (zone_defs, { s with
      zone_definitions_classes := (item, zone_defs) :: s.zone_definitions_classes,
      fresh := s.fresh + 1 })

/-- `ZonesMeta.__getitem__` (metrics/zones.py, lines 79-100); on a cache miss
it evaluates `ZoneDefinitions[column]` to build its `deps` attribute. -/
def ZonesMeta.getitem (s : FamilyState) (item : String) : PyClass × FamilyState :=
  match alookup s.zones_classes item with
  | some c => (c, s)
  | none =>
    let column := item
    let zd := ZoneDefinitionsMeta.getitem s column
    let zones : PyClass :=
      { oid := zd.2.fresh, column := column, deps := [zd.1.oid],
        name := "times in " ++ column ++ " zones" }
    (zones, { zd.2 with zones_classes := (item, zones) :: zd.2.zones_classes,
                        fresh := zd.2.fresh + 1 })

/-- `TimeInZoneMeta.__getitem__` (metrics/zones.py, lines 126-149), keyed by
`(column, zone)`; on a cache miss it evaluates `Zones[column]` for its
`deps` attribute. -/
def TimeInZoneMeta.getitem (s : FamilyState) (item : String × String) :
    PyClass × FamilyState :=
  match alookup s.time_in_zone_classes item with
  | some c => (c, s)
  | none =>
    let column := item.1
    let zone := item.2
    let z := ZonesMeta.getitem s column
    let time_in_zone : PyClass :=
      { oid := z.2.fresh, column := column, zone := zone, deps := [z.1.oid],
        name := "Time in " ++ column ++ " zone " ++ zone }
    (time_in_zone, { z.2 with
      time_in_zone_classes := (item, time_in_zone) :: z.2.time_in_zone_classes,
      fresh := z.2.fresh + 1 })

theorem curve_getitem_idem (s : FamilyState) (item : String) :
    CurveMeta.getitem (CurveMeta.getitem s item).2 item = CurveMeta.getitem s item := by
  rcases h : alookup s.curve_classes item with - | c
  · simp [CurveMeta.getitem, h, alookup_cons_self]
  · simp [CurveMeta.getitem, h]

theorem mean_max_getitem_idem (s : FamilyState) (item : String × Nat) :
    MeanMaxMeta.getitem (MeanMaxMeta.getitem s item).2 item =
      MeanMaxMeta.getitem s item := by
  rcases h : alookup s.mean_max_classes item with - | c
  · simp [MeanMaxMeta.getitem, h, alookup_cons_self]
  · simp [MeanMaxMeta.getitem, h]

theorem zone_definitions_getitem_idem (s : FamilyState) (item : String) :
    ZoneDefinitionsMeta.getitem (ZoneDefinitionsMeta.getitem s item).2 item =
      ZoneDefinitionsMeta.getitem s item := by
  rcases h : alookup s.zone_definitions_classes item with - | c
  · simp [ZoneDefinitionsMeta.getitem, h, alookup_cons_self]
  · simp [ZoneDefinitionsMeta.getitem, h]

theorem zones_getitem_idem (s : FamilyState) (item : String) :
    ZonesMeta.getitem (ZonesMeta.getitem s item).2 item = ZonesMeta.getitem s item := by
  rcases h : alookup s.zones_classes item with - | c
  · simp [ZonesMeta.getitem, h, alookup_cons_self]
  · simp [ZonesMeta.getitem, h]

theorem time_in_zone_getitem_idem (s : FamilyState) (item : String × String) :
    TimeInZoneMeta.getitem (TimeInZoneMeta.getitem s item).2 item =
      TimeInZoneMeta.getitem s item := by
  rcases h : alookup s.time_in_zone_classes item with - | c
  · simp [TimeInZoneMeta.getitem, h, alookup_cons_self]
  · simp [TimeInZoneMeta.getitem, h]

/-- C2: instantiating any of the five parametrized metric families (`Curve`,
`MeanMax`, `ZoneDefinitions`, `Zones`, `TimeInZone`) twice with identical
arguments returns the identical class object (same object identity) and
leaves the memo state untouched: each factory is memoized and acts as an
idempotent pure function of (template, args). -/
theorem family_instantiation_memoized :
    (∀ s item, CurveMeta.getitem (CurveMeta.getitem s item).2 item =
      CurveMeta.getitem s item) ∧
    (∀ s item, MeanMaxMeta.getitem (MeanMaxMeta.getitem s item).2 item =
      MeanMaxMeta.getitem s item) ∧
    (∀ s item, ZoneDefinitionsMeta.getitem (ZoneDefinitionsMeta.getitem s item).2 item =
      ZoneDefinitionsMeta.getitem s item) ∧
    (∀ s item, ZonesMeta.getitem (ZonesMeta.getitem s item).2 item =
      ZonesMeta.getitem s item) ∧
    (∀ s item, TimeInZoneMeta.getitem (TimeInZoneMeta.getitem s item).2 item =
      TimeInZoneMeta.getitem s item) :=
  ⟨curve_getitem_idem, mean_max_getitem_idem, zone_definitions_getitem_idem,
    zones_getitem_idem, time_in_zone_getitem_idem⟩

/-! ### The curve fitter (`Curve.compute`, metrics/pdm.py, lines 110-136) -/

/-- Outcome of one `DurationRegressor(model=model).fit(X, y)` call followed by
parameter extraction, for one model on one activity's mean-max data: the
fitted parameter dict, or one of the two exception classes `Curve.compute`
catches (`RuntimeError`: non-convergence, `ValueError`: degenerate input), or
any other exception, which the code does not catch. -/
inductive FitOutcome where
  | ok (params : List (String × ℚ))
  | runtimeError
  | valueError
  | fatal
  deriving DecidableEq

/-- The five model names iterated by `Curve.compute`. -/
def curve_models : List String :=
  ["2 param", "3 param", "exponential", "omni", "pt"]

/-- Loop body of `Curve.compute`: `rtn[model] = {param: value, …}` on
success, `pass` on a caught `RuntimeError`/`ValueError`, propagation
otherwise. -/
def curve_fit_step (fit : String → FitOutcome)
    (rtn : List (String × List (String × ℚ))) (model : String) :
    Except Unit (List (String × List (String × ℚ))) :=
  match fit model with
  | .ok params => .ok (rtn ++ [(model, params)])
  | .runtimeError => .ok rtn
  | .valueError => .ok rtn
  | .fatal => .error ()

/-- `Curve.compute` (metrics/pdm.py, lines 110-136): fit the five models in
order to the activity's mean-max series, building the result dict
`{model_name: {param_name: value}}`.  `fit` is the oracle describing what the
scipy-backed regressor does for each model on this activity's data. -/
def Curve.compute (fit : String → FitOutcome) :
    Except Unit (List (String × List (String × ℚ))) :=
  curve_models.foldlM (curve_fit_step fit) []

theorem curve_fold_spec (fit : String → FitOutcome) :
    ∀ (ms : List String) (acc : List (String × List (String × ℚ))),
      (∀ m ∈ ms, fit m ≠ .fatal) →
      ∃ r, ms.foldlM (curve_fit_step fit) acc = .ok r ∧
        ∀ m p, (m, p) ∈ r ↔ (m, p) ∈ acc ∨ (m ∈ ms ∧ fit m = .ok p) := by
  intro ms
  induction ms with
  | nil =>
    intro acc _
    exact ⟨acc, rfl, by simp⟩
  | cons model ms ih =>
    intro acc hfat
    rcases h : fit model with params | - | - | -
    · obtain ⟨r, hr, hiff⟩ := ih (acc ++ [(model, params)])
        (fun m hm => hfat m (List.mem_cons_of_mem _ hm))
      refine ⟨r, ?_, ?_⟩
      · simpa [curve_fit_step, h] using hr
      · intro m p
        rw [hiff m p]
        constructor
        · rintro (hacc | hms)
          · rcases List.mem_append.mp hacc with hacc | hone
            · exact Or.inl hacc
            · have heq := List.mem_singleton.mp hone
              rw [Prod.mk.injEq] at heq
              refine Or.inr ⟨by rw [heq.1]; exact List.mem_cons_self _ _, ?_⟩
              rw [heq.1, h, heq.2]
          · exact Or.inr ⟨List.mem_cons_of_mem _ hms.1, hms.2⟩
        · rintro (hacc | ⟨hm, hfit⟩)
          · exact Or.inl (List.mem_append.mpr (Or.inl hacc))
          · rcases List.mem_cons.mp hm with rfl | hm
            · rw [h] at hfit
              cases hfit
              exact Or.inl (List.mem_append.mpr (Or.inr (List.mem_singleton.mpr rfl)))
            · exact Or.inr ⟨hm, hfit⟩
    · obtain ⟨r, hr, hiff⟩ := ih acc (fun m hm => hfat m (List.mem_cons_of_mem _ hm))
      refine ⟨r, by simpa [curve_fit_step, h] using hr, ?_⟩
      intro m p
      rw [hiff m p]
      constructor
      · rintro (hacc | hms)
        · exact Or.inl hacc
        · exact Or.inr ⟨List.mem_cons_of_mem _ hms.1, hms.2⟩
      · rintro (hacc | ⟨hm, hfit⟩)
        · exact Or.inl hacc
        · rcases List.mem_cons.mp hm with rfl | hm
          · rw [h] at hfit; cases hfit
          · exact Or.inr ⟨hm, hfit⟩
    · obtain ⟨r, hr, hiff⟩ := ih acc (fun m hm => hfat m (List.mem_cons_of_mem _ hm))
      refine ⟨r, by simpa [curve_fit_step, h] using hr, ?_⟩
      intro m p
      rw [hiff m p]
      constructor
      · rintro (hacc | hms)
        · exact Or.inl hacc
        · exact Or.inr ⟨List.mem_cons_of_mem _ hms.1, hms.2⟩
      · rintro (hacc | ⟨hm, hfit⟩)
        · exact Or.inl hacc
        · rcases List.mem_cons.mp hm with rfl | hm
          · rw [h] at hfit; cases hfit
          · exact Or.inr ⟨hm, hfit⟩
    · exact absurd h (hfat model (List.mem_cons_self _ _))

/-- C5: the curve models are fitted independently.  For any fit behaviour
whose failures are among the caught classes (`RuntimeError`, `ValueError`),
`Curve.compute` returns a result dict whose keys are exactly the models whose
fit succeeded: a failing model's entry is omitted while every other model is
still attempted and recorded. -/
theorem curve_models_fitted_independently (fit : String → FitOutcome)
    (hfat : ∀ m ∈ curve_models, fit m ≠ .fatal) :
    ∃ r, Curve.compute fit = .ok r ∧
      ∀ m p, (m, p) ∈ r ↔ m ∈ curve_models ∧ fit m = .ok p := by
  obtain ⟨r, hr, hiff⟩ := curve_fold_spec fit curve_models [] hfat
  exact ⟨r, hr, fun m p => by simpa using hiff m p⟩

/-- Fit oracle for the witness: the "3 param" fit does not converge, the
"omni" fit rejects its input, the other three models fit. -/
def wfit : String → FitOutcome := fun m =>
  if m = "3 param" then .runtimeError
  else if m = "omni" then .valueError
  else .ok [("cp", 250)]

theorem curve_models_fitted_independently_witness :
    ∃ r, Curve.compute wfit = .ok r ∧
      ∀ m p, (m, p) ∈ r ↔ m ∈ curve_models ∧ wfit m = .ok p :=
  curve_models_fitted_independently wfit (by decide)

/-! ### Zone definitions (`ZoneDefinitions.compute`, metrics/zones.py) -/

/-- Python exception classes relevant to the modelled code, plus the
dedicated `UnknownMetricError` that the specification postulates (no such
class exists anywhere in the source). -/
inductive PyErr where
  | nameError
  | keyError
  | typeError
  | valueError
  | unknownMetricError
  deriving DecidableEq

/-- `ZoneDefinitions.compute` (metrics/zones.py, lines 50-76).  `lthr` is the
value of the generated class's declared `LactateThresholdHR` dependency; the
code never reads it — the heartrate branch hardcodes `base = 175`.  The power
branch evaluates `self.get_metric(CyclingFTP)` where the name `CyclingFTP` is
neither defined nor imported in zones.py, raising `NameError`; every other
column leaves `bins`/`labels` unbound so `len(labels)` also raises
`NameError`. -/
def ZoneDefinitions.compute (column : String) (lthr : ℚ) :
    Except PyErr (List ℚ × List String) :=
  if column = "heartrate" then
    let base : ℚ := 175
    let bins : List ℚ := [0, 65, 80, 89, 95, 100, 114]
    let labels := ["Z0", "Z1", "Z2", "Z3", "Z4", "Z5"]
    .ok (bins.map (fun b => b * base / 100), labels)
  else if column = "power" then
    .error .nameError
  else
    .error .nameError

/-- C6 (code bug): `ZoneDefinitions.compute` does not derive boundaries from
the threshold-value dependency.  With a configured lactate-threshold
heartrate of 170, the heartrate boundaries come from the hardcoded 175 and
differ from `170 × pct / 100`; for power the computation raises `NameError`
(undefined `CyclingFTP`) instead of using the declared `FTP` dependency.  The
claim's monotonicity and label-count parts do hold on the one branch that
returns. -/
theorem zone_definitions_ignore_threshold :
    (ZoneDefinitions.compute "heartrate" 170 =
      .ok ([0, 113.75, 140, 155.75, 166.25, 175, 199.5],
        ["Z0", "Z1", "Z2", "Z3", "Z4", "Z5"]) ∧
      ([0, 113.75, 140, 155.75, 166.25, 175, (199.5 : ℚ)] ≠
        ([0, 65, 80, 89, 95, 100, 114] : List ℚ).map (fun b => b * 170 / 100))) ∧
    ZoneDefinitions.compute "power" 170 = .error .nameError ∧
    ∀ lthr, ∃ bins labels,
      ZoneDefinitions.compute "heartrate" lthr = .ok (bins, labels) ∧
      bins.Chain' (· < ·) ∧ labels.length = bins.length - 1 := by
  refine ⟨⟨?_, ?_⟩, rfl, ?_⟩
  · show Except.ok (([0, 65, 80, 89, 95, 100, 114] : List ℚ).map fun b => b * 175 / 100,
      ["Z0", "Z1", "Z2", "Z3", "Z4", "Z5"]) = _
    norm_num
  · intro h
    have := congrArg (fun l => l.get? 1) h
    norm_num at this
  · intro lthr
    refine ⟨_, _, rfl, ?_, by norm_num⟩
    show List.Chain' (· < ·) (([0, 65, 80, 89, 95, 100, 114] : List ℚ).map fun b => b * 175 / 100)
    norm_num

/-! ### Per-activity evaluation (`Athlete._update_metrics_for_activity`, athlete.py, lines 341-417) -/

/-- Value returned by a successful `metric_instance.compute()` call, split by
how the caching code treats it: `num q` coerces under `float(value)`;
`obj t` raises `TypeError` under `float` and is stored as `json_value` (`t`
is a tag standing for the structured payload); `pynone` is Python `None`;
`badstr` is a non-numeric string, for which `float(value)` raises the
uncaught `ValueError`. -/
inductive PyVal where
  | num (q : ℚ)
  | obj (t : Nat)
  | pynone
  | badstr (s : String)
  deriving DecidableEq

/-- Behaviour of one `metric_instance.compute()` call on this activity: a
returned value, one of the three exception classes the evaluator catches
(`TypeError`, `ValueError`, `KeyError`), or any other exception, which
propagates. -/
inductive ComputeRes where
  | ret (v : PyVal)
  | typeError
  | valueError
  | keyError
  | fatal
  deriving DecidableEq

/-- Attributes and per-activity behaviour of one metric class as read by
`_update_metrics_for_activity`: `name` is the class `__name__` (cache rows
are keyed by it), `deps` lists each hard dependency's `(__name__, cache)`
pair, `weak_deps` likewise for the weak dependencies (this function never
reads them), `applicable` is what `metric_instance.applicable()` returns for
the activity, `compute` what `metric_instance.compute()` does. -/
structure MDef where
  name : String
  cache : Bool
  deps : List (String × Bool)
  weak_deps : List (String × Bool) := []
  applicable : Bool
  compute : ComputeRes
  deriving DecidableEq

/-- One persisted row of the `metrics` table for the activity at hand. -/
structure Row where
  name : String
  value : Option ℚ
  json_value : Option PyVal
  deriving DecidableEq

/-- `session.merge(Metric(...))`: upsert of the row keyed by `name` into the
`metrics` table (the activity id, the other primary-key column, is fixed
throughout). -/
def merge : List Row → Row → List Row
  | [], r => [r]
  | x :: rest, r => if x.name = r.name then r :: rest else x :: merge rest r

/-- The row stored under name `n`, if any. -/
def getRow : List Row → String → Option Row
  | [], _ => none
  | x :: rest, n => if x.name = n then some x else getRow rest n

/-- What happened to one metric in the loop (the code only logs this). -/
inductive Outcome where
  | skipNoCache
  | skipCached
  | skipMissingDep
  | notApplicable
  | stored
  deriving DecidableEq

/-- Loop body of `_update_metrics_for_activity` for a single metric.
`existing` holds the cached metric names collected once at entry, `recompute`
is the force flag; the state is the activity's metric rows plus the
`new_metrics` list.  In order: cache-ineligible metrics are skipped; a cached
name is skipped unless `recompute`; a hard dependency that is cache-eligible
but neither cached nor freshly computed skips the metric; otherwise, if
applicable, the name is appended to `new_metrics` and `compute()` runs — a
caught `TypeError`/`ValueError`/`KeyError` sets `value = None`, a `None`
value is merged as a null row (and `float(None)` then merges the same null
row again), a numeric value is merged as a scalar, a structured value under
`json_value`, and a non-numeric string or any other exception propagates
(`Except.error`). -/
def update_metrics_step (recompute : Bool) (existing : List String) (m : MDef)
    (rows : List Row) (new_metrics : List String) :
    Except Unit (List Row × List String × Outcome) :=
  if !m.cache then .ok (rows, new_metrics, .skipNoCache)
  else if decide (m.name ∈ existing) && !recompute then
    .ok (rows, new_metrics, .skipCached)
  else if m.deps.any (fun d =>
      !decide (d.1 ∈ existing) && !decide (d.1 ∈ new_metrics) && d.2) then
    .ok (rows, new_metrics, .skipMissingDep)
  else if m.applicable then
    let new_metrics := new_metrics ++ [m.name]
    match m.compute with
    | .fatal => .error ()
    | .typeError =>
      .ok (merge (merge rows ⟨m.name, none, none⟩) ⟨m.name, none, none⟩,
        new_metrics, .stored)
    | .valueError =>
      .ok (merge (merge rows ⟨m.name, none, none⟩) ⟨m.name, none, none⟩,
        new_metrics, .stored)
    | .keyError =>
      .ok (merge (merge rows ⟨m.name, none, none⟩) ⟨m.name, none, none⟩,
        new_metrics, .stored)
    | .ret .pynone =>
      .ok (merge (merge rows ⟨m.name, none, none⟩) ⟨m.name, none, none⟩,
        new_metrics, .stored)
    | .ret (.num q) => .ok (merge rows ⟨m.name, some q, none⟩, new_metrics, .stored)
    | .ret (.obj t) =>
      .ok (merge rows ⟨m.name, none, some (.obj t)⟩, new_metrics, .stored)
    | .ret (.badstr _) => .error ()
  else .ok (rows, new_metrics, .notApplicable)

/-- The `for metric in metrics` loop, threading rows, `new_metrics` and the
outcome log. -/
def update_metrics_loop (recompute : Bool) (existing : List String) :
    List MDef → List Row × List String × List (String × Outcome) →
      Except Unit (List Row × List String × List (String × Outcome))
  | [], st => .ok st
  | m :: ms, st =>
    match update_metrics_step recompute existing m st.1 st.2.1 with
    | .error e => .error e
    | .ok r =>
      update_metrics_loop recompute existing ms (r.1, r.2.1, st.2.2 ++ [(m.name, r.2.2)])

/-- `Athlete._update_metrics_for_activity` (athlete.py, lines 341-417):
collect `existing_metrics` from the current rows, then run the loop over the
ordered metric list. -/
def update_metrics_for_activity (recompute : Bool) (metrics : List MDef)
    (rows0 : List Row) :
    Except Unit (List Row × List String × List (String × Outcome)) :=
  update_metrics_loop recompute (rows0.map Row.name) metrics (rows0, [], [])

theorem getRow_merge_self (rows : List Row) (r : Row) :
    getRow (merge rows r) r.name = some r := by
  induction rows with
  | nil => simp [merge, getRow]
  | cons y ys ih =>
    by_cases hy : y.name = r.name
    · simp [merge, hy, getRow]
    · simp only [merge, if_neg hy, getRow]
      exact ih

theorem getRow_merge_other (rows : List Row) (r : Row) (n : String)
    (h : n ≠ r.name) : getRow (merge rows r) n = getRow rows n := by
  have hrn : ¬(r.name = n) := fun hh => h hh.symm
  induction rows with
  | nil => simp [merge, getRow, hrn]
  | cons y ys ih =>
    by_cases hy : y.name = r.name
    · have hyn : ¬(y.name = n) := by rw [hy]; exact hrn
      simp only [merge, if_pos hy, getRow]
      rw [if_neg hrn, if_neg hyn]
    · simp only [merge, if_neg hy, getRow]
      by_cases hyn : y.name = n
      · rw [if_pos hyn, if_pos hyn]
      · rw [if_neg hyn, if_neg hyn, ih]

/-- A cache-ineligible metric is skipped outright: state untouched. -/
theorem step_skipNoCache (recompute : Bool) (existing : List String) (m : MDef)
    (rows : List Row) (nm : List String) (hc : m.cache = false) :
    update_metrics_step recompute existing m rows nm =
      .ok (rows, nm, .skipNoCache) := by
  rw [update_metrics_step, hc]
  rfl

/-- A cache-eligible metric whose name is already cached is skipped outright
under `recompute = False`: state untouched, compute unread. -/
theorem step_skipCached (existing : List String) (m : MDef) (rows : List Row)
    (nm : List String) (hc : m.cache = true) (hmem : m.name ∈ existing) :
    update_metrics_step false existing m rows nm = .ok (rows, nm, .skipCached) := by
  rw [update_metrics_step, hc]
  simp [hmem]

/-- A step for a metric named differently from `n` never touches the row
stored under `n`. -/
theorem step_preserves_other (recompute : Bool) (existing : List String)
    (m : MDef) (rows : List Row) (nm : List String) (n : String)
    (hne : m.name ≠ n) (st' : List Row × List String × Outcome)
    (h : update_metrics_step recompute existing m rows nm = .ok st') :
    getRow st'.1 n = getRow rows n := by
  have hne' : n ≠ m.name := fun hh => hne hh.symm
  rw [update_metrics_step] at h
  by_cases h1 : !m.cache
  · rw [if_pos h1] at h; cases h; rfl
  rw [if_neg h1] at h
  by_cases h2 : decide (m.name ∈ existing) && !recompute
  · rw [if_pos h2] at h; cases h; rfl
  rw [if_neg h2] at h
  by_cases h3 : m.deps.any (fun d =>
      !decide (d.1 ∈ existing) && !decide (d.1 ∈ nm) && d.2)
  · rw [if_pos h3] at h; cases h; rfl
  rw [if_neg h3] at h
  by_cases h4 : m.applicable
  · rw [if_pos h4] at h
    rcases hcr : m.compute with v | - | - | - | -
    all_goals rw [hcr] at h
    · rcases v with q | t | - | s
      · cases h; exact getRow_merge_other _ _ _ hne'
      · cases h; exact getRow_merge_other _ _ _ hne'
      · cases h
        rw [getRow_merge_other _ _ _ hne', getRow_merge_other _ _ _ hne']
      · cases h
    · cases h
      rw [getRow_merge_other _ _ _ hne', getRow_merge_other _ _ _ hne']
    · cases h
      rw [getRow_merge_other _ _ _ hne', getRow_merge_other _ _ _ hne']
    · cases h
      rw [getRow_merge_other _ _ _ hne', getRow_merge_other _ _ _ hne']
    · cases h
  · rw [if_neg h4] at h; cases h; rfl

/-- Under `recompute = False`, no metric of the list ever modifies the row of
a name that was cached at entry (cached names are either skipped or belong to
other metrics). -/
theorem loop_preserves_cached {existing : List String} {n : String}
    (hn : n ∈ existing) :
    ∀ (ms : List MDef) (st st' : List Row × List String × List (String × Outcome)),
      update_metrics_loop false existing ms st = .ok st' →
      getRow st'.1 n = getRow st.1 n := by
  intro ms
  induction ms with
  | nil =>
    intro st st' h
    cases h
    rfl
  | cons m ms ih =>
    intro st st' h
    rw [update_metrics_loop] at h
    rcases hs : update_metrics_step false existing m st.1 st.2.1 with e | r
    · rw [hs] at h; cases h
    · rw [hs] at h
      have hrec := ih _ _ h
      by_cases hname : m.name = n
      · subst hname
        by_cases hcache : m.cache = true
        · rw [step_skipCached existing m st.1 st.2.1 hcache hn] at hs
          cases hs
          exact hrec
        · have hmc : m.cache = false := by
            cases hv : m.cache
            · rfl
            · exact absurd hv hcache
          rw [step_skipNoCache false existing m st.1 st.2.1 hmc] at hs
          cases hs
          exact hrec
      · rw [hrec]
        exact step_preserves_other false existing m st.1 st.2.1 n hname r hs

/-- C3: a cache-eligible metric whose value is already in the persisted cache
is not recomputed under `recompute = False`: its evaluation step returns
immediately without invoking compute and without touching the state, a full
run leaves its cached row unchanged, and a cached cache-eligible metric ever
reaches computation (outcome `stored`) only when `recompute = True` was
passed. -/
theorem cached_metric_not_recomputed :
    (∀ (existing : List String) (m : MDef) (rows : List Row) (nm : List String),
      m.cache = true → m.name ∈ existing →
      update_metrics_step false existing m rows nm = .ok (rows, nm, .skipCached)) ∧
    (∀ (metrics : List MDef) (rows0 : List Row)
      (st' : List Row × List String × List (String × Outcome)) (m : MDef),
      m ∈ metrics → m.cache = true → m.name ∈ rows0.map Row.name →
      update_metrics_for_activity false metrics rows0 = .ok st' →
      getRow st'.1 m.name = getRow rows0 m.name) ∧
    ∀ (recompute : Bool) (existing : List String) (m : MDef) (rows : List Row)
      (nm : List String) (st' : List Row × List String × Outcome),
      m.cache = true → m.name ∈ existing →
      update_metrics_step recompute existing m rows nm = .ok st' →
      st'.2.2 = .stored → recompute = true := by
  refine ⟨step_skipCached, ?_, ?_⟩
  · intro metrics rows0 st' m _ _ hmem h
    exact loop_preserves_cached hmem metrics (rows0, [], []) st' h
  · intro recompute existing m rows nm st' hc hmem h hst
    cases recompute
    · rw [step_skipCached existing m rows nm hc hmem] at h
      cases h
      cases hst
    · rfl

/-- Cached metric used by the C3 witness. -/
def c3metric : MDef :=
  { name := "TimerTime", cache := true, deps := [], applicable := true,
    compute := .ret (.num 3600) }

theorem cached_metric_not_recomputed_witness :
    update_metrics_step false ["TimerTime"] c3metric
      [⟨"TimerTime", some 3600, none⟩] [] =
      .ok ([⟨"TimerTime", some 3600, none⟩], [], .skipCached) :=
  cached_metric_not_recomputed.1 ["TimerTime"] c3metric
    [⟨"TimerTime", some 3600, none⟩] [] rfl (List.mem_singleton.mpr rfl)

/-- Metric whose compute raises a caught failure (`KeyError`), used by the C7
counterexample and witness. -/
def c7metric : MDef :=
  { name := "GOVSS", cache := true, deps := [], applicable := true,
    compute := .keyError }

/-- C7 (counterexample): a caught compute failure is written to the persisted
cache after all — the run stores a null row for the (activity, metric) pair —
and the next non-forced run therefore skips the metric instead of retrying
it, contradicting the claim that nothing is cached and the metric is
retried. -/
theorem failed_compute_not_cached_counterexample :
    update_metrics_for_activity false [c7metric] [] =
      .ok ([⟨"GOVSS", none, none⟩], ["GOVSS"], [("GOVSS", .stored)]) ∧
    update_metrics_for_activity false [c7metric] [⟨"GOVSS", none, none⟩] =
      .ok ([⟨"GOVSS", none, none⟩], [], [("GOVSS", .skipCached)]) :=
  ⟨rfl, rfl⟩

/-- C7 (amended): when compute raises one of the expected failure classes
(`TypeError`, `ValueError`, `KeyError`), the failure is caught, but the
metric is then cached as a null row (`value = None`, `json_value = None`) for
that (activity, metric) pair, so a later non-forced run finds the name cached
and skips the metric instead of retrying it. -/
theorem failed_compute_cached_as_null (existing : List String) (m : MDef)
    (rows : List Row) (nm : List String)
    (hc : m.cache = true) (hnew : m.name ∉ existing)
    (hdeps : ∀ d ∈ m.deps, d.1 ∈ existing ∨ d.1 ∈ nm ∨ d.2 = false)
    (happ : m.applicable = true)
    (herr : m.compute = .typeError ∨ m.compute = .valueError ∨
      m.compute = .keyError) :
    (∃ rows', update_metrics_step false existing m rows nm =
        .ok (rows', nm ++ [m.name], .stored) ∧
      getRow rows' m.name = some ⟨m.name, none, none⟩) ∧
    ∀ (existing2 : List String) (rows2 : List Row) (nm2 : List String),
      m.name ∈ existing2 →
      update_metrics_step false existing2 m rows2 nm2 =
        .ok (rows2, nm2, .skipCached) := by
  have hany : ¬(m.deps.any (fun d =>
      !decide (d.1 ∈ existing) && !decide (d.1 ∈ nm) && d.2) = true) := by
    rw [List.any_eq_true]
    rintro ⟨d, hd, hp⟩
    rcases hdeps d hd with h | h | h <;> simp [h] at hp
  constructor
  · rw [update_metrics_step, hc]
    simp only [Bool.not_true, Bool.false_eq_true, if_false]
    rw [if_neg (by simp [hnew]), if_neg hany, if_pos happ]
    rcases herr with h | h | h <;>
      exact ⟨_, by rw [h], by rw [getRow_merge_self]⟩
  · intro existing2 rows2 nm2 hmem2
    exact step_skipCached existing2 m rows2 nm2 hc hmem2

theorem failed_compute_cached_as_null_witness :
    (∃ rows', update_metrics_step false [] c7metric [] [] =
        .ok (rows', [] ++ ["GOVSS"], .stored) ∧
      getRow rows' "GOVSS" = some ⟨"GOVSS", none, none⟩) ∧
    ∀ (existing2 : List String) (rows2 : List Row) (nm2 : List String),
      "GOVSS" ∈ existing2 →
      update_metrics_step false existing2 c7metric rows2 nm2 =
        .ok (rows2, nm2, .skipCached) :=
  failed_compute_cached_as_null [] c7metric [] [] rfl (by simp)
    (by simp [c7metric]) rfl
    (Or.inr (Or.inr rfl))

/-! ### Weak dependencies (`UniversalStressScore.compute`, metrics/pmc.py) -/

/-- Result of one `self.get_metric(dep)` call inside
`UniversalStressScore.compute`: a numeric value, Python `None` (for instance
because the weak dep was inapplicable or cached as a null row), a raised
`KeyError` (the one class the loop catches), or any other exception. -/
inductive GetRes where
  | val (q : ℚ)
  | noneV
  | keyErr
  | fatal
  deriving DecidableEq

/-- `UniversalStressScore.compute` (metrics/pmc.py, lines 20-26): walk the
weak deps in declared order and return the first retrieval that does not
raise `KeyError` — whatever it is, `None` included — falling back to `0` when
every weak dep raises `KeyError`.  The argument lists the behaviour of
`self.get_metric` for each weak dep in order. -/
def UniversalStressScore.compute : List GetRes → Except Unit PyVal
  | [] => .ok (.num 0)
  | .val q :: _ => .ok (.num q)
  | .noneV :: _ => .ok .pynone
  | .keyErr :: rest => UniversalStressScore.compute rest
  | .fatal :: _ => .error ()

/-- Modelled from the spec: the dependent `consults weak deps as a
prioritized fallback list and uses the first one that yields a value` — a
weak dep that produces no value (`None`, failure) is passed over in favour of
the next one. -/
def uss_compute_spec : List GetRes → Except Unit PyVal
  | [] => .ok (.num 0)
  | .val q :: _ => .ok (.num q)
  | .noneV :: rest => uss_compute_spec rest
  | .keyErr :: rest => uss_compute_spec rest
  | .fatal :: rest => uss_compute_spec rest

/-- C9 (counterexample): a first weak dep retrieved as `None` (inapplicable
or cached as null) does not fall through to the second weak dep: the code
returns `None` even though the second weak dep has the value 50, while the
claimed rule would return 50. -/
theorem weak_dep_fallback_counterexample :
    UniversalStressScore.compute [.noneV, .val 50] = .ok .pynone ∧
    uss_compute_spec [.noneV, .val 50] = .ok (.num 50) ∧
    (Except.ok PyVal.pynone : Except Unit PyVal) ≠ .ok (.num 50) :=
  ⟨rfl, rfl, by simp⟩

/-- C9 (amended): weak dependencies never trigger the missing-dependency
skip — the evaluator's dependency check reads only the hard deps, so a weak
dependency being inapplicable or uncomputable never blocks the dependent,
which is still attempted; the dependent consults its weak deps in declared
order and uses the first whose retrieval does not raise `KeyError` (even when
that retrieval yields `None`), falling back to `0` when all raise `KeyError`;
whereas a missing cache-eligible hard dependency skips the dependent without
attempting compute. -/
theorem weak_deps_never_block :
    (∀ (recompute : Bool) (existing : List String) (m : MDef)
      (w : List (String × Bool)) (rows : List Row) (nm : List String),
      update_metrics_step recompute existing { m with weak_deps := w } rows nm =
        update_metrics_step recompute existing m rows nm) ∧
    (∀ (recompute : Bool) (existing : List String) (m : MDef) (rows : List Row)
      (nm : List String),
      m.cache = true → (m.name ∉ existing ∨ recompute = true) →
      (∃ d ∈ m.deps, d.1 ∉ existing ∧ d.1 ∉ nm ∧ d.2 = true) →
      update_metrics_step recompute existing m rows nm =
        .ok (rows, nm, .skipMissingDep)) ∧
    (∀ rest, UniversalStressScore.compute (.keyErr :: rest) =
      UniversalStressScore.compute rest) ∧
    (∀ q rest, UniversalStressScore.compute (.val q :: rest) = .ok (.num q)) ∧
    (∀ rest, UniversalStressScore.compute (.noneV :: rest) = .ok .pynone) ∧
    UniversalStressScore.compute [] = .ok (.num 0) := by
  refine ⟨fun recompute existing m w rows nm => rfl, ?_,
    fun rest => rfl, fun q rest => rfl, fun rest => rfl, rfl⟩
  intro recompute existing m rows nm hc hnc hdep
  obtain ⟨d, hd, h1, h2, h3⟩ := hdep
  rw [update_metrics_step, hc]
  simp only [Bool.not_true, Bool.false_eq_true, if_false]
  rw [if_neg ?hcached, if_pos ?hany]
  case hcached =>
    rcases hnc with h | h
    · simp [h]
    · simp [h]
  case hany =>
    rw [List.any_eq_true]
    exact ⟨d, hd, by simp [h1, h2, h3]⟩

theorem weak_deps_never_block_witness :
    update_metrics_step false ["Sport"]
      { name := "CogganTSS", cache := true, deps := [("CogganNP", true)],
        weak_deps := [], applicable := true, compute := .ret (.num 50) }
      [] [] = .ok ([], [], .skipMissingDep) :=
  weak_deps_never_block.2.1 false ["Sport"]
    { name := "CogganTSS", cache := true, deps := [("CogganNP", true)],
      weak_deps := [], applicable := true, compute := .ret (.num 50) }
    [] [] rfl (Or.inl (by simp)) ⟨("CogganNP", true), by simp, by simp, by simp, rfl⟩

/-! ### Applicability gating (`Metric.applicable`, metrics/base.py, lines 89-109) -/

/-- Dispatch of `metric_instance.applicable()`.  A class that does not
override `applicable` runs `Metric.applicable` from metrics/base.py: the
conjunction of `_has_needed_columns()` — every entry of the class attribute
`needed_columns` present in `activity.available_columns` — with the class's
`_applicable()` predicate (`pred`).  A class that overrides `applicable`
replaces all of that by its own predicate (`overrideVal`). -/
def Metric.applicable (overridesApplicable : Bool) (needed_columns : List String)
    (pred : Bool) (overrideVal : Bool) (available_columns : List String) : Bool :=
  if overridesApplicable then overrideVal
  else needed_columns.all (fun c => decide (c ∈ available_columns)) && pred

/-- One metric class of the registry: its `__name__`, whether it (or a base
class before `Metric` in its MRO) overrides `applicable`, and its
`needed_columns` class attribute. -/
structure RegEntry where
  rname : String
  overridesApplicable : Bool
  needed_columns : List String
  deriving DecidableEq

/-- Every concrete metric class of the source tree, with the parametrized
families instantiated at an arbitrary column `col` (and time `t`, zone `z`,
which never influence these attributes).  Only the zones module declares
needed columns: `ZoneDefinitions` and `Zones` set `needed_columns = [column]`
and inherit `Metric.applicable`; every other class keeps the inherited
`needed_columns = []`.  Classes marked `true` override `applicable`
(directly, or through `RunningMetric`/`CyclingMetric`/`Curve`/`MeanMax` in
their MRO); `UnknownMessageMetric` and its subclasses override only the
`_applicable` predicate, not `applicable`. -/
def metric_registry (col : String) : List RegEntry :=
  [⟨"ActivityDate", true, []⟩, ⟨"TimerTime", true, []⟩, ⟨"ElapsedTime", true, []⟩,
   ⟨"MovingTime", true, []⟩, ⟨"TotalAscent", true, []⟩, ⟨"TotalDescent", true, []⟩,
   ⟨"TotalDistance", true, []⟩, ⟨"Sport", true, []⟩, ⟨"AverageSpeed", true, []⟩,
   ⟨"AveragePower", true, []⟩, ⟨"AverageHR", true, []⟩,
   ⟨"ThresholdHeartrate", false, []⟩, ⟨"RunningMetric", true, []⟩,
   ⟨"CyclingMetric", true, []⟩, ⟨"ConfiguredValueMetric", false, []⟩,
   ⟨"FTP", false, []⟩, ⟨"LactateThresholdHR", false, []⟩, ⟨"Height", false, []⟩,
   ⟨"Weight", false, []⟩, ⟨"CogganNP", true, []⟩, ⟨"CyclingFTP", true, []⟩,
   ⟨"CogganVI", true, []⟩, ⟨"CogganIF", true, []⟩, ⟨"CogganTSS", true, []⟩,
   ⟨"CogganEF", true, []⟩, ⟨"LNP", true, []⟩, ⟨"XPace", true, []⟩,
   ⟨"CV", true, []⟩, ⟨"RTP", true, []⟩, ⟨"IWF", true, []⟩, ⟨"GOVSS", true, []⟩,
   ⟨"UnknownMessageMetric", false, []⟩, ⟨"Firstbeat", false, []⟩,
   ⟨"VO2Max", false, []⟩, ⟨"RunningVO2Max", true, []⟩,
   ⟨"CyclingVO2Max", true, []⟩, ⟨"WorkoutName", false, []⟩,
   ⟨"WorkoutNotes", false, []⟩, ⟨"UniversalStressScore", false, []⟩,
   ⟨"Curve[col]", true, []⟩, ⟨"MeanMax[col, t]", true, []⟩,
   ⟨"ZoneDefinitions[col]", false, [col]⟩, ⟨"Zones[col]", false, [col]⟩,
   ⟨"TimeInZone[col, z]", true, []⟩]

/-- C4: a metric with a required column absent from the activity's available
columns evaluates to not-applicable, with compute never invoked and nothing
cached, regardless of what its own `_applicable` predicate returns; the
inherited needed-columns gate forces `applicable()` to `False`, and no class
of the registry that bypasses the gate (by overriding `applicable`) declares
any needed column, so the property holds for every metric definition of the
source. -/
theorem missing_required_column_not_applicable :
    (∀ (needs avail : List String) (pred ov : Bool),
      (∃ c ∈ needs, c ∉ avail) →
      Metric.applicable false needs pred ov avail = false) ∧
    (∀ col, ∀ e ∈ metric_registry col,
      e.overridesApplicable = true → e.needed_columns = []) ∧
    ∀ (needs avail : List String) (pred ov : Bool) (name : String)
      (deps : List (String × Bool)) (comp : ComputeRes) (recompute : Bool)
      (existing nm : List String) (rows : List Row),
      (∃ c ∈ needs, c ∉ avail) →
      (name ∉ existing ∨ recompute = true) →
      (∀ d ∈ deps, d.1 ∈ existing ∨ d.1 ∈ nm ∨ d.2 = false) →
      update_metrics_step recompute existing
        ⟨name, true, deps, [], Metric.applicable false needs pred ov avail, comp⟩
        rows nm = .ok (rows, nm, .notApplicable) := by
  have hgate : ∀ (needs avail : List String) (pred ov : Bool),
      (∃ c ∈ needs, c ∉ avail) →
      Metric.applicable false needs pred ov avail = false := by
    intro needs avail pred ov ⟨c, hc, hnc⟩
    rw [Metric.applicable, if_neg (by simp)]
    have : needs.all (fun c => decide (c ∈ avail)) = false := by
      rcases hall : needs.all (fun c => decide (c ∈ avail)) with - | -
      · rfl
      · exact absurd (by simpa using List.all_eq_true.mp hall c hc) hnc
    rw [this]
    rfl
  refine ⟨hgate, ?_, ?_⟩
  · intro col e he
    fin_cases he <;> simp
  · intro needs avail pred ov name deps comp recompute existing nm rows
      hmiss hnc hdeps
    have hany : ¬(deps.any (fun d =>
        !decide (d.1 ∈ existing) && !decide (d.1 ∈ nm) && d.2) = true) := by
      rw [List.any_eq_true]
      rintro ⟨d, hd, hp⟩
      rcases hdeps d hd with h | h | h <;> simp [h] at hp
    rw [update_metrics_step]
    simp only [Bool.not_true, Bool.false_eq_true, if_false]
    rw [if_neg ?hcached, if_neg hany, if_neg (by simp [hgate needs avail pred ov hmiss])]
    case hcached =>
      rcases hnc with h | h
      · simp [h]
      · simp [h]

theorem missing_required_column_not_applicable_witness :
    update_metrics_step false []
      ⟨"Zones[power]", true, [], [],
        Metric.applicable false ["power"] true true ["speed", "heartrate"],
        .ret (.num 1)⟩ [] [] = .ok ([], [], .notApplicable) :=
  missing_required_column_not_applicable.2.2 ["power"] ["speed", "heartrate"]
    true true "Zones[power]" [] (.ret (.num 1)) false [] [] []
    ⟨"power", by simp, by simp⟩ (Or.inl (by simp)) (by simp)

/-! ### Metric-name resolution (metrics/calculate.py, lines 33-98) -/

/-- `get_metric` (metrics/calculate.py, lines 33-37): return the class
registered in `get_metrics_map()` under `metric_name`, else fall back to
`eval(metric_name)` — modelled for bare identifiers: evaluating an
identifier that is also no global of the module raises `NameError`, while an
unrelated global (a logger, an imported module, a builtin) is happily
returned.  Values are object tags. -/
def get_metric (metrics_map globals : List (String × Nat)) (metric_name : String) :
    Except PyErr Nat :=
  match alookup metrics_map metric_name with
  | some c => .ok c
  | none =>
    match alookup globals metric_name with
    | some o => .ok o
    | none => .error .nameError

/-- Argument literal of the metric-name grammar: a quoted string, an integer
or a real. -/
inductive PyArg where
  | str (s : String)
  | int (n : Int)
  | real (q : ℚ)
  deriving DecidableEq

/-- A metric class as seen by `parse_metric_string`: its object tag and
whether its metaclass defines `__getitem__` (a parametrized family;
subscripting any other class raises `TypeError`). -/
structure MetricClass where
  tag : Nat
  family : Bool
  deriving DecidableEq

/-- A successful match of the grammar
`class ("[" args? "]")? ("[" fields? "]")?`: the leading identifier and the
optional argument and field groups of the pyparsing result list. -/
structure ParsedName where
  head : String
  args : Option (List PyArg)
  fields : Option (List PyArg)
  deriving DecidableEq

/-- `parse_metric_string` (metrics/calculate.py, lines 77-98) after the
grammar step.  Input `none` models a string the grammar does not match (the
function returns `(None, [])`).  Otherwise the leading identifier is resolved
through `get_metrics_map()[class_name]` — a dict subscript, raising
`KeyError` when the identifier is not registered — and the bracket groups
are applied: a single argument `""` leaves the class untouched, a family is
instantiated through its metaclass `__getitem__` (the `inst` oracle), and
subscripting a non-family class raises `TypeError`, which the code catches by
treating the first group as field selectors. -/
def parse_metric_string (metrics_map : List (String × MetricClass))
    (inst : MetricClass → List PyArg → MetricClass) (p : Option ParsedName) :
    Except PyErr (Option MetricClass × List PyArg) :=
  match p with
  | none => .ok (none, [])
  | some pn =>
    match alookup metrics_map pn.head with
    | none => .error .keyError
    | some metric =>
      match pn.args with
      | none => .ok (some metric, [])
      | some args =>
        if args = [.str ""] then .ok (some metric, pn.fields.getD [])
        else if metric.family then .ok (some (inst metric args), pn.fields.getD [])
        else .ok (some metric, args)

/-- Metrics map used by the C8 counterexample (a fragment of the real
`get_metrics_map()`; what matters is that "Foo" is not registered). -/
def metrics_map₀ : List (String × MetricClass) :=
  [("Curve", ⟨0, true⟩), ("Sport", ⟨1, false⟩)]

/-- C8 (counterexample): resolving the unregistered leading identifier "Foo"
raises `KeyError` in `parse_metric_string` and `NameError` in `get_metric` —
neither is the `UnknownMetricError` the claim names, and no such class exists
in the source. -/
theorem unknown_metric_error_counterexample :
    parse_metric_string metrics_map₀ (fun m _ => m) (some ⟨"Foo", none, none⟩) =
      .error .keyError ∧
    get_metric [("Curve", 0), ("Sport", 1)] [("logger", 7)] "Foo" =
      .error .nameError ∧
    PyErr.keyError ≠ PyErr.unknownMetricError ∧
    PyErr.nameError ≠ PyErr.unknownMetricError :=
  ⟨rfl, rfl, by simp, by simp⟩

/-- C8 (amended): for every metric-name string whose leading identifier is
not a registered metric, `parse_metric_string` raises `KeyError` (a plain
dict lookup failure), and `get_metric` raises `NameError` whenever the
identifier is also absent from the module globals its `eval` fallback sees —
there is no dedicated `UnknownMetricError` anywhere. -/
theorem unknown_identifier_resolution (head : String)
    (metrics_map : List (String × MetricClass))
    (inst : MetricClass → List PyArg → MetricClass)
    (a f : Option (List PyArg)) (nmap : List (String × Nat))
    (globals : List (String × Nat))
    (hhead : alookup metrics_map head = none)
    (hnmap : alookup nmap head = none) :
    parse_metric_string metrics_map inst (some ⟨head, a, f⟩) = .error .keyError ∧
    (alookup globals head = none →
      get_metric nmap globals head = .error .nameError) := by
  constructor
  · rw [parse_metric_string]
    rw [hhead]
  · intro hg
    rw [get_metric, hnmap, hg]

theorem unknown_identifier_resolution_witness :
    parse_metric_string metrics_map₀ (fun m _ => m) (some ⟨"Foo", none, none⟩) =
      .error .keyError ∧
    (alookup [("logger", 7)] "Foo" = none →
      get_metric [("Curve", 0), ("Sport", 1)] [("logger", 7)] "Foo" =
        .error .nameError) :=
  unknown_identifier_resolution "Foo" metrics_map₀ (fun m _ => m) none none
    [("Curve", 0), ("Sport", 1)] [("logger", 7)] rfl rfl

end SportsPlanner
